import Mathlib

/-!
Verification of the magic-eraser / selection engine of the repository
(`src/components/magic_eraser.py`) against its natural-language specification.

Shallow embedding notes:
* PIL images are modelled by `PImage`: width, height, colour mode and a pixel
  function returning the list of 8-bit channel samples at a coordinate
  (x = column, y = row).  All samples are `ℕ` with explicit `% 256` wherever the
  numpy `uint8` arithmetic of the source wraps.
* numpy `uint8` subtraction and squaring wrap modulo 256 (`sub8`, `sq8`); sums
  produced by `np.sum` are exact because numpy promotes the accumulator to the
  platform integer.
* The float comparison `np.sqrt (Σ d²) ≤ tolerance` of the source is modelled
  exactly by the integer test `0 ≤ tol ∧ Σ d² ≤ tol²`: both sides of the float
  comparison are exactly representable and IEEE sqrt is correctly rounded, so
  the two tests agree on every 8-bit input.
* External library primitives (cv2.GaussianBlur, cv2.inpaint, PIL resize and
  the Canny-based rule-of-thirds helper) are taken as explicit function
  parameters of the embedded operations; theorems quantify over them or
  constrain them by their documented contracts.
-/

/-- An RGB colour sample triple (each component an 8-bit value). -/
abbrev Color := ℕ × ℕ × ℕ

/-- numpy `uint8` subtraction `a - b` (wraps modulo 256). -/
def sub8 (a b : ℕ) : ℕ := (a % 256 + 256 - b % 256) % 256

/-- numpy `uint8` squaring `d ** 2` (wraps modulo 256). -/
def sq8 (d : ℕ) : ℕ := d * d % 256

/-- The squared colour distance the source actually computes in
`MagicEraser._flood_fill_select` / `_global_color_select` and in
`ContentAwareFill._find_best_patch`: per-channel `uint8` subtraction and
squaring (both wrapping modulo 256), summed exactly by `np.sum`. -/
def dist2wrap (c t : Color) : ℕ :=
  sq8 (sub8 c.1 t.1) + sq8 (sub8 c.2.1 t.2.1) + sq8 (sub8 c.2.2 t.2.2)

/-- The tolerance test `np.sqrt (Σ d²) <= tolerance` of the source, modelled
exactly over the integers (see module docstring). -/
def passesTol (c t : Color) (tol : ℤ) : Bool :=
  decide (0 ≤ tol) && decide ((dist2wrap c t : ℤ) ≤ tol * tol)

/-- PIL colour modes used by the module. -/
inductive PMode
  | L
  | RGB
  | RGBA
deriving DecidableEq

/-- A PIL image: dimensions, mode, and per-pixel channel samples
(`px x y` is the channel list at column `x`, row `y`). -/
structure PImage where
  width : ℕ
  height : ℕ
  mode : PMode
  px : ℕ → ℕ → List ℕ

/-- `Image.convert('RGB')` at pixel level: `L` replicates the grey value,
`RGBA` drops alpha, `RGB` is the identity. -/
def toRGBpx : PMode → List ℕ → Color
  | PMode.L, l => (l.getD 0 0, l.getD 0 0, l.getD 0 0)
  | _, l => (l.getD 0 0, l.getD 1 0, l.getD 2 0)

/-- The RGB sample of an image at a coordinate, after `convert('RGB')`. -/
def PImage.rgbAt (image : PImage) (x y : ℕ) : Color :=
  toRGBpx image.mode (image.px x y)

/-- `Image.convert('RGBA')` at pixel level: `L` replicates and adds alpha 255,
`RGB` appends alpha 255, `RGBA` is the identity. -/
def convertRGBApx : PMode → List ℕ → List ℕ
  | PMode.L, l => [l.getD 0 0, l.getD 0 0, l.getD 0 0, 255]
  | PMode.RGB, l => [l.getD 0 0, l.getD 1 0, l.getD 2 0, 255]
  | PMode.RGBA, l => l

/-- First channel sample of an image at a coordinate (the value
`np.array(mask)[y, x]` for a single-channel mask). -/
def pxVal (image : PImage) (x y : ℕ) : ℕ := (image.px x y).getD 0 0

/-- `mask.convert('L')` at pixel level: identity on `L` images, the PIL
luminance formula `(299 R + 587 G + 114 B) / 1000` otherwise. -/
def toLval (image : PImage) (x y : ℕ) : ℕ :=
  match image.mode with
  | PMode.L => (image.px x y).getD 0 0
  | _ =>
    ((image.px x y).getD 0 0 * 299 + (image.px x y).getD 1 0 * 587 +
      (image.px x y).getD 2 0 * 114) / 1000

/-- `AdvancedSelectionTools.invert_selection`: pointwise `255 - value` on the
`uint8` mask array, returned as an `'L'` image. -/
def invert_selection (mask : PImage) : PImage :=
  ⟨mask.width, mask.height, PMode.L, fun x y => [255 - (mask.px x y).getD 0 0 % 256]⟩

/-- `AdvancedSelectionTools.combine_selections`: pointwise combination of two
`uint8` mask arrays.  `union` is `np.maximum`, `intersection` is `np.minimum`,
`difference` is `np.where(a1 > a2, a1 - a2, 0)`, `symmetric_difference` is
`np.abs(a1 - a2)` — on `uint8` arrays the subtraction wraps modulo 256 and
`np.abs` is the identity, hence `sub8`.  Any other operation string yields
`array1`.  The result is cast to `uint8` and returned as an `'L'` image. -/
def combine_selections (mask1 mask2 : PImage) (operation : String) : PImage :=
  let a := fun x y => pxVal mask1 x y % 256
  let b := fun x y => pxVal mask2 x y % 256
  let r : ℕ → ℕ → ℕ := fun x y =>
    if operation = "union" then max (a x y) (b x y)
    else if operation = "intersection" then min (a x y) (b x y)
    else if operation = "difference" then (if b x y < a x y then a x y - b x y else 0)
    else if operation = "symmetric_difference" then sub8 (a x y) (b x y)
    else a x y
  ⟨mask1.width, mask1.height, PMode.L, fun x y => [r x y % 256]⟩

/-- Claim C9: `invert_selection` is an involution — applying it twice returns
the original mask at every pixel (for 8-bit mask samples), and the dimensions
are preserved. -/
theorem C9_invert_involution (m : PImage) (x y : ℕ) (h : pxVal m x y < 256) :
    pxVal (invert_selection (invert_selection m)) x y = pxVal m x y ∧
    (invert_selection (invert_selection m)).width = m.width ∧
    (invert_selection (invert_selection m)).height = m.height := by
  refine ⟨?_, rfl, rfl⟩
  simp only [pxVal, invert_selection, List.getD_cons_zero] at h ⊢
  omega

/-- Claim C9 witness: the involution law evaluated on a concrete 1×1 mask. -/
theorem C9_invert_involution_witness :
    pxVal (invert_selection (invert_selection ⟨1, 1, PMode.L, fun _ _ => [17]⟩)) 0 0 =
      pxVal (⟨1, 1, PMode.L, fun _ _ => [17]⟩ : PImage) 0 0 ∧
    (invert_selection (invert_selection ⟨1, 1, PMode.L, fun _ _ => [17]⟩)).width = 1 ∧
    (invert_selection (invert_selection ⟨1, 1, PMode.L, fun _ _ => [17]⟩)).height = 1 :=
  C9_invert_involution ⟨1, 1, PMode.L, fun _ _ => [17]⟩ 0 0 (by decide)

/-- Claim C2 counterexample: on the 1×1 masks with values 0 and 255,
`combine_selections` under `symmetric_difference` returns 1 (the `uint8`
wraparound difference), not the mathematical absolute difference 255. -/
theorem C2_symmetric_difference_counterexample :
    pxVal (combine_selections ⟨1, 1, PMode.L, fun _ _ => [0]⟩
        ⟨1, 1, PMode.L, fun _ _ => [255]⟩ "symmetric_difference") 0 0 = 1 ∧
    Int.natAbs ((0 : ℤ) - 255) = 255 ∧ (1 : ℕ) ≠ 255 := by
  refine ⟨?_, by decide, by decide⟩
  decide

/-- Claim C2 (amended): `symmetric_difference` returns the pointwise `uint8`
wraparound difference `(m1 - m2) mod 256`: explicitly, `m1 - m2` when
`m2 ≤ m1` and `256 - (m2 - m1)` otherwise; this equals the mathematical
absolute difference `|m1 - m2|` exactly at pixels where `m2 ≤ m1` or
`m2 - m1 = 128`. -/
theorem C2_symmetric_difference_amended (m1 m2 : PImage) (x y : ℕ)
    (h1 : pxVal m1 x y < 256) (h2 : pxVal m2 x y < 256) :
    (pxVal (combine_selections m1 m2 "symmetric_difference") x y =
      if pxVal m2 x y ≤ pxVal m1 x y then pxVal m1 x y - pxVal m2 x y
      else 256 - (pxVal m2 x y - pxVal m1 x y)) ∧
    (pxVal (combine_selections m1 m2 "symmetric_difference") x y =
        Int.natAbs ((pxVal m1 x y : ℤ) - (pxVal m2 x y : ℤ)) ↔
      (pxVal m2 x y ≤ pxVal m1 x y ∨ pxVal m2 x y = pxVal m1 x y + 128)) := by
  have hv : pxVal (combine_selections m1 m2 "symmetric_difference") x y =
      (pxVal m1 x y % 256 + 256 - pxVal m2 x y % 256) % 256 % 256 := by
    simp [combine_selections, pxVal, sub8]
  rw [hv]
  constructor
  · rcases le_or_lt (pxVal m2 x y) (pxVal m1 x y) with h | h
    · rw [if_pos h]; omega
    · rw [if_neg (not_le.mpr h)]; omega
  · omega

/-- Claim C2 witness: the amended characterisation evaluated on concrete
1×1 masks with values 200 and 60. -/
theorem C2_symmetric_difference_amended_witness :
    (pxVal (combine_selections ⟨1, 1, PMode.L, fun _ _ => [200]⟩
        ⟨1, 1, PMode.L, fun _ _ => [60]⟩ "symmetric_difference") 0 0 =
      if pxVal (⟨1, 1, PMode.L, fun _ _ => [60]⟩ : PImage) 0 0 ≤
          pxVal (⟨1, 1, PMode.L, fun _ _ => [200]⟩ : PImage) 0 0 then
        pxVal (⟨1, 1, PMode.L, fun _ _ => [200]⟩ : PImage) 0 0 -
          pxVal (⟨1, 1, PMode.L, fun _ _ => [60]⟩ : PImage) 0 0
      else 256 - (pxVal (⟨1, 1, PMode.L, fun _ _ => [60]⟩ : PImage) 0 0 -
          pxVal (⟨1, 1, PMode.L, fun _ _ => [200]⟩ : PImage) 0 0)) ∧
    (pxVal (combine_selections ⟨1, 1, PMode.L, fun _ _ => [200]⟩
        ⟨1, 1, PMode.L, fun _ _ => [60]⟩ "symmetric_difference") 0 0 =
        Int.natAbs ((pxVal (⟨1, 1, PMode.L, fun _ _ => [200]⟩ : PImage) 0 0 : ℤ) -
          (pxVal (⟨1, 1, PMode.L, fun _ _ => [60]⟩ : PImage) 0 0 : ℤ)) ↔
      (pxVal (⟨1, 1, PMode.L, fun _ _ => [60]⟩ : PImage) 0 0 ≤
          pxVal (⟨1, 1, PMode.L, fun _ _ => [200]⟩ : PImage) 0 0 ∨
        pxVal (⟨1, 1, PMode.L, fun _ _ => [60]⟩ : PImage) 0 0 =
          pxVal (⟨1, 1, PMode.L, fun _ _ => [200]⟩ : PImage) 0 0 + 128)) :=
  C2_symmetric_difference_amended ⟨1, 1, PMode.L, fun _ _ => [200]⟩
    ⟨1, 1, PMode.L, fun _ _ => [60]⟩ 0 0 (by decide) (by decide)

/-- The explicit-stack flood-fill loop of `MagicEraser._flood_fill_select`,
with a fuel argument making the recursion structural.  The list head is the
top of the Python stack (`stack.pop()` pops the last element, and
`stack.extend([(x+1,y),(x-1,y),(x,y+1),(x,y-1)])` appends, so the next pops
are `(x,y-1)`, `(x,y+1)`, `(x-1,y)`, `(x+1,y)` — hence the cons order below).
Each iteration pops one entry; an in-bounds, unvisited entry passing the
tolerance test is marked visited, its mask value set to 255, and its four
neighbours pushed.  A pixel failing the test is popped without being marked
visited, exactly as in the source (only passing pixels enter `visited`). -/
def floodLoopF (W H : ℕ) (img : ℕ → ℕ → Color) (target : Color) (tol : ℤ) :
    ℕ → List (ℤ × ℤ) → Finset (ℕ × ℕ) → (ℕ → ℕ → ℕ) → (ℕ → ℕ → ℕ)
  | 0, _, _, mask => mask
  | _ + 1, [], _, mask => mask
  | fuel + 1, (x, y) :: rest, visited, mask =>
    if x < 0 ∨ (W : ℤ) ≤ x ∨ y < 0 ∨ (H : ℤ) ≤ y ∨ (x.toNat, y.toNat) ∈ visited then
      floodLoopF W H img target tol fuel rest visited mask
    else if passesTol (img x.toNat y.toNat) target tol then
      floodLoopF W H img target tol fuel
        ((x, y - 1) :: (x, y + 1) :: (x - 1, y) :: (x + 1, y) :: rest)
        (insert (x.toNat, y.toNat) visited)
        (fun a b => if a = x.toNat ∧ b = y.toNat then 255 else mask a b)
    else floodLoopF W H img target tol fuel rest visited mask

/-- `MagicEraser._flood_fill_select`: run the flood-fill loop from the start
point on an all-zero mask.  The fuel `5*W*H + 1` dominates the loop's
termination measure `5 * |unvisited grid pixels| + |stack|` (each pop consumes
one stack entry; a visiting pop removes one pixel from the unvisited set and
pushes four entries, decreasing the measure by 2; every other pop decreases it
by 1), so the loop always drains its stack within the allotted fuel —
`floodLoopF_fuel_irrel` below makes this exact. -/
def flood_fill_select (W H : ℕ) (img : ℕ → ℕ → Color) (start : ℤ × ℤ)
    (target : Color) (tol : ℤ) : ℕ → ℕ → ℕ :=
  floodLoopF W H img target tol (5 * (W * H) + 1) [start] ∅ (fun _ _ => 0)

/-- `MagicEraser._global_color_select`: every pixel is tested against the
target colour independently; 255 where the (wraparound) distance passes the
tolerance, 0 elsewhere. -/
def global_color_select (img : ℕ → ℕ → Color) (target : Color) (tol : ℤ) :
    ℕ → ℕ → ℕ :=
  fun x y => if passesTol (img x y) target tol then 255 else 0

/-- `MagicEraser.magic_select` for a default-configured `MagicEraser`
(`tolerance=32`, `contiguous=True`, `anti_alias=True`, `feather_radius=1`).
`blurAA` and `blurF` stand for the external cv2 Gaussian smoothing primitives
applied by `_apply_anti_aliasing` and `_apply_feathering` (both active under
the default configuration).  The coalescing `tolerance or self.tolerance` of
line 35 maps `None` and the falsy `0` to the default 32; `contiguous` uses an
explicit `is not None` check, so `False` is respected.  An out-of-bounds point
returns `Image.new('L', image.size, 0)` immediately, before any smoothing. -/
def magic_select (blurAA blurF : PImage → PImage) (image : PImage)
    (point : ℤ × ℤ) (tolerance : Option ℤ) (contiguous : Option Bool) : PImage :=
  let tol : ℤ := match tolerance with
    | none => 32
    | some t => if t = 0 then 32 else t
  let contig : Bool := contiguous.getD true
  let W := image.width
  let H := image.height
  let img := fun x y => image.rgbAt x y
  if (W : ℤ) ≤ point.1 ∨ (H : ℤ) ≤ point.2 ∨ point.1 < 0 ∨ point.2 < 0 then
    ⟨W, H, PMode.L, fun _ _ => [0]⟩
  else
    let target := img point.1.toNat point.2.toNat
    let maskv : ℕ → ℕ → ℕ :=
      if contig then flood_fill_select W H img point target tol
      else global_color_select img target tol
    blurF (blurAA ⟨W, H, PMode.L, fun x y => [maskv x y]⟩)

/-- The `erase_mode` argument of `MagicEraser.erase_selection`: a string or an
RGB(A) tuple. -/
inductive EraseMode
  | str (s : String)
  | tup (c : List ℕ)

/-- `MagicEraser.erase_selection`: the image is first promoted to RGBA; the
mask is converted to `'L'` and thresholded at `> 128`.  `'transparent'` zeroes
the alpha channel of selected pixels (other channels untouched); `'white'` and
`'black'` replace selected pixels with the solid colour at full opacity; a
3- or 4-tuple replaces them with the custom colour (alpha 255 appended to a
3-tuple); any other mode falls through and the promoted image is returned
unmodified.  The result is always an RGBA image. -/
def erase_selection (image mask : PImage) (erase_mode : EraseMode) : PImage :=
  let base := fun x y => convertRGBApx image.mode (image.px x y)
  let mval := fun x y => toLval mask x y
  let pxOut : ℕ → ℕ → List ℕ := fun x y =>
    let p := base x y
    match erase_mode with
    | EraseMode.str s =>
      if s = "transparent" then
        [p.getD 0 0, p.getD 1 0, p.getD 2 0, if 128 < mval x y then 0 else p.getD 3 0]
      else if s = "white" then (if 128 < mval x y then [255, 255, 255, 255] else p)
      else if s = "black" then (if 128 < mval x y then [0, 0, 0, 255] else p)
      else p
    | EraseMode.tup c =>
      if c.length = 3 then (if 128 < mval x y then c ++ [255] else p)
      else if c.length = 4 then (if 128 < mval x y then c else p)
      else p
  ⟨image.width, image.height, PMode.RGBA, pxOut⟩

/-- Claim C1, evaluation at the failing input.  The 2×1 RGB image has pixels
`(10,10,10)` and `(11,10,10)` (Euclidean distance 1); `magic_select` is called
at seed `(0,0)` with `tolerance = 0` in contiguous mode.  Because line 35 of
the source coalesces the falsy `0` to the default 32 (`tolerance or
self.tolerance`), the flood fill runs with tolerance 32 and selects the
adjacent differently-coloured pixel (mask value 255), where the claim requires
it to be excluded.  The smoothing passes are instantiated by the identity:
the flood-fill mask is constantly 255 here, which the normalised Gaussian
smoothing of the source preserves, so the instantiation is exact for this
input.  The final conjunct shows the fixed fuel of `flood_fill_select` has
fully drained the stack on this input (a hundredfold fuel gives the same
mask). -/
theorem C1_tolerance_zero_failing_eval :
    pxVal (magic_select id id
        ⟨2, 1, PMode.RGB, fun x _ => if x = 0 then [10, 10, 10] else [11, 10, 10]⟩
        (0, 0) (some 0) (some true)) 1 0 = 255 ∧
    pxVal (magic_select id id
        ⟨2, 1, PMode.RGB, fun x _ => if x = 0 then [10, 10, 10] else [11, 10, 10]⟩
        (0, 0) (some 0) (some true)) 0 0 = 255 ∧
    dist2wrap (11, 10, 10) (10, 10, 10) = 1 ∧
    (flood_fill_select 2 1 (fun x _ => if x = 0 then (10, 10, 10) else (11, 10, 10))
          (0, 0) (10, 10, 10) 32 0 0 =
        floodLoopF 2 1 (fun x _ => if x = 0 then (10, 10, 10) else (11, 10, 10))
          (10, 10, 10) 32 1100 [(0, 0)] ∅ (fun _ _ => 0) 0 0 ∧
      flood_fill_select 2 1 (fun x _ => if x = 0 then (10, 10, 10) else (11, 10, 10))
          (0, 0) (10, 10, 10) 32 1 0 =
        floodLoopF 2 1 (fun x _ => if x = 0 then (10, 10, 10) else (11, 10, 10))
          (10, 10, 10) 32 1100 [(0, 0)] ∅ (fun _ _ => 0) 1 0) := by
  refine ⟨by decide, by decide, by decide, by decide, by decide⟩

/-- Claim C7: a seed point outside the image bounds (`x ≥ W`, `y ≥ H`, `x < 0`
or `y < 0`) makes `magic_select` return an all-zero `'L'` mask of the image's
exact dimensions, for every image, every tolerance and contiguous setting and
for arbitrary smoothing primitives (the early return precedes any smoothing).
In the embedding every operation is a total function, so no exception can be
raised. -/
theorem C7_out_of_bounds_zero_mask (blurAA blurF : PImage → PImage)
    (image : PImage) (point : ℤ × ℤ) (tolerance : Option ℤ)
    (contiguous : Option Bool)
    (h : point.1 < 0 ∨ point.2 < 0 ∨ (image.width : ℤ) ≤ point.1 ∨
      (image.height : ℤ) ≤ point.2) :
    magic_select blurAA blurF image point tolerance contiguous =
      ⟨image.width, image.height, PMode.L, fun _ _ => [0]⟩ := by
  rw [magic_select.eq_def]
  rw [if_pos (by tauto)]

/-- Claim C7 witness: the out-of-bounds early return evaluated on a concrete
2×2 image with the seed at x = 5. -/
theorem C7_out_of_bounds_zero_mask_witness :
    magic_select id id ⟨2, 2, PMode.RGB, fun _ _ => [3, 4, 5]⟩ (5, 0) none none =
      ⟨2, 2, PMode.L, fun _ _ => [0]⟩ :=
  C7_out_of_bounds_zero_mask id id ⟨2, 2, PMode.RGB, fun _ _ => [3, 4, 5]⟩ (5, 0)
    none none (by decide)

/-- Claim C5: `erase_selection` with mode `'transparent'` on same-sized image
and mask zeroes the alpha channel exactly at pixels whose mask value exceeds
128, leaves the alpha of every other pixel unchanged, and leaves the R, G, B
channels of every pixel unchanged — all relative to the image promoted to
RGBA; the output has the input's dimensions. -/
theorem C5_transparent_erase (image mask : PImage) (x y : ℕ)
    (hw : mask.width = image.width) (hh : mask.height = image.height)
    (hx : x < image.width) (hy : y < image.height) :
    ((erase_selection image mask (EraseMode.str "transparent")).px x y).getD 0 0 =
        (convertRGBApx image.mode (image.px x y)).getD 0 0 ∧
    ((erase_selection image mask (EraseMode.str "transparent")).px x y).getD 1 0 =
        (convertRGBApx image.mode (image.px x y)).getD 1 0 ∧
    ((erase_selection image mask (EraseMode.str "transparent")).px x y).getD 2 0 =
        (convertRGBApx image.mode (image.px x y)).getD 2 0 ∧
    ((erase_selection image mask (EraseMode.str "transparent")).px x y).getD 3 0 =
        (if 128 < toLval mask x y then 0
          else (convertRGBApx image.mode (image.px x y)).getD 3 0) ∧
    (erase_selection image mask (EraseMode.str "transparent")).width = image.width ∧
    (erase_selection image mask (EraseMode.str "transparent")).height = image.height := by
  refine ⟨?_, ?_, ?_, ?_, rfl, rfl⟩ <;> simp [erase_selection]

/-- Claim C5 witness: the transparent erase evaluated at the pixel (0,0) of a
concrete 1×1 RGB image under a fully-selecting mask. -/
theorem C5_transparent_erase_witness :
    ((erase_selection ⟨1, 1, PMode.RGB, fun _ _ => [9, 8, 7]⟩
        ⟨1, 1, PMode.L, fun _ _ => [255]⟩ (EraseMode.str "transparent")).px 0 0).getD 0 0 =
        (convertRGBApx PMode.RGB [9, 8, 7]).getD 0 0 ∧
    ((erase_selection ⟨1, 1, PMode.RGB, fun _ _ => [9, 8, 7]⟩
        ⟨1, 1, PMode.L, fun _ _ => [255]⟩ (EraseMode.str "transparent")).px 0 0).getD 1 0 =
        (convertRGBApx PMode.RGB [9, 8, 7]).getD 1 0 ∧
    ((erase_selection ⟨1, 1, PMode.RGB, fun _ _ => [9, 8, 7]⟩
        ⟨1, 1, PMode.L, fun _ _ => [255]⟩ (EraseMode.str "transparent")).px 0 0).getD 2 0 =
        (convertRGBApx PMode.RGB [9, 8, 7]).getD 2 0 ∧
    ((erase_selection ⟨1, 1, PMode.RGB, fun _ _ => [9, 8, 7]⟩
        ⟨1, 1, PMode.L, fun _ _ => [255]⟩ (EraseMode.str "transparent")).px 0 0).getD 3 0 =
        (if 128 < toLval (⟨1, 1, PMode.L, fun _ _ => [255]⟩ : PImage) 0 0 then 0
          else (convertRGBApx PMode.RGB [9, 8, 7]).getD 3 0) ∧
    (erase_selection ⟨1, 1, PMode.RGB, fun _ _ => [9, 8, 7]⟩
        ⟨1, 1, PMode.L, fun _ _ => [255]⟩ (EraseMode.str "transparent")).width = 1 ∧
    (erase_selection ⟨1, 1, PMode.RGB, fun _ _ => [9, 8, 7]⟩
        ⟨1, 1, PMode.L, fun _ _ => [255]⟩ (EraseMode.str "transparent")).height = 1 :=
  C5_transparent_erase ⟨1, 1, PMode.RGB, fun _ _ => [9, 8, 7]⟩
    ⟨1, 1, PMode.L, fun _ _ => [255]⟩ 0 0 rfl rfl (by decide) (by decide)

/-- RGB ↔ BGR channel swap (`cv2.cvtColor` with `COLOR_RGB2BGR`). -/
def bgrOfRgb (c : Color) : Color := (c.2.2, c.2.1, c.1)

/-- BGR ↔ RGB channel swap (`cv2.cvtColor` with `COLOR_BGR2RGB`). -/
def rgbOfBgr (c : Color) : Color := (c.2.2, c.2.1, c.1)

/-- `ContentAwareFill.fill_selection`: the image is converted to RGB, the
mask to `'L'`, the RGB array is swapped to BGR for OpenCV, `cv2.inpaint` is
applied for methods `'telea'` and `'ns'` (any other method leaves the BGR
array untouched), and the result is swapped back and returned via
`Image.fromarray(result_rgb, 'RGB')` — always an `'RGB'` image of the input's
dimensions.  `inpaintTelea` and `inpaintNS` are the external `cv2.inpaint`
primitives (shape-preserving by their contract), taken as parameters. -/
def fill_selection (inpaintTelea inpaintNS :
      (ℕ → ℕ → Color) → (ℕ → ℕ → ℕ) → (ℕ → ℕ → Color))
    (image mask : PImage) (method : String) : PImage :=
  let imgRGB := fun x y => image.rgbAt x y
  let maskL := fun x y => toLval mask x y
  let imgCv := fun x y => bgrOfRgb (imgRGB x y)
  let result :=
    if method = "telea" then inpaintTelea imgCv maskL
    else if method = "ns" then inpaintNS imgCv maskL
    else imgCv
  ⟨image.width, image.height, PMode.RGB, fun x y =>
    let c := rgbOfBgr (result x y)
    [c.1, c.2.1, c.2.2]⟩

/-- A square pixel patch (a 2-D slice of the RGB array): height, width and
the sample at patch coordinates (row i, column j). -/
structure Patch where
  ph : ℕ
  pw : ℕ
  pix : ℕ → ℕ → Color

/-- The full-sized candidate patch of `_find_best_patch` centred at
`(sx, sy)`: `image[sy-half:sy+half+1, sx-half:sx+half+1]`, which for an
interior centre has exactly `(2*half+1)` rows and columns. -/
def candidatePatch (img : ℕ → ℕ → Color) (half sy sx : ℕ) : Patch :=
  ⟨2 * half + 1, 2 * half + 1, fun i j => img (sx - half + j) (sy - half + i)⟩

/-- The candidate score of `_find_best_patch`:
`np.sum((candidate[valid] - target_patch[valid]) ** 2)` — a sum over the
non-masked positions of the (clipped) target window of the per-channel
`uint8` wraparound squared differences. -/
def patchSSD (img : ℕ → ℕ → Color) (maskB : ℕ → ℕ → Bool)
    (x1 y1 th tw half sy sx : ℕ) : ℕ :=
  ∑ i ∈ Finset.range th, ∑ j ∈ Finset.range tw,
    if maskB (x1 + j) (y1 + i) then 0
    else dist2wrap ((candidatePatch img half sy sx).pix i j) (img (x1 + j) (y1 + i))

/-- One candidate step of the `_find_best_patch` search: skip candidates with
a masked centre, candidates whose shape differs from the (possibly clipped)
target window, and candidates for which no valid (non-masked) target pixel
exists; otherwise keep the candidate iff its score strictly beats the best so
far. -/
def fbpStep (img : ℕ → ℕ → Color) (maskB : ℕ → ℕ → Bool)
    (x1 y1 th tw half : ℕ) (best : Option (ℕ × Patch)) (c : ℕ × ℕ) :
    Option (ℕ × Patch) :=
  if maskB c.2 c.1 then best
  else if ¬(th = 2 * half + 1 ∧ tw = 2 * half + 1) then best
  else if ¬(∃ i < th, ∃ j < tw, maskB (x1 + j) (y1 + i) = false) then best
  else
    let diff := patchSSD img maskB x1 y1 th tw half c.1 c.2
    match best with
    | none => some (diff, candidatePatch img half c.1 c.2)
    | some (bs, bp) =>
      if diff < bs then some (diff, candidatePatch img half c.1 c.2)
      else some (bs, bp)

/-- The row-major list of candidate centres `(sy, sx)` searched by
`_find_best_patch`: `sy` in `range(half, H - half)` outer, `sx` in
`range(half, W - half)` inner. -/
def candList (W H half : ℕ) : List (ℕ × ℕ) :=
  (List.range' half (H - half - half)).foldr
    (fun sy acc => ((List.range' half (W - half - half)).map (fun sx => (sy, sx))) ++ acc) []

/-- `ContentAwareFill._find_best_patch`: clip the target window centred at
`(tx, ty)` to the image, then scan all interior candidate centres in raster
order, returning the best-scoring unmasked full-sized candidate patch (or
`None` when no candidate qualifies). -/
def find_best_patch (W H : ℕ) (img : ℕ → ℕ → Color) (maskB : ℕ → ℕ → Bool)
    (tx ty ps : ℕ) : Option Patch :=
  let half := ps / 2
  let y1 := ty - half
  let y2 := min H (ty + half + 1)
  let x1 := tx - half
  let x2 := min W (tx + half + 1)
  ((candList W H half).foldl (fbpStep img maskB x1 y1 (y2 - y1) (x2 - x1) half) none).map
    Prod.snd

/-- One iteration of the `patch_match_fill` loop: look up the best patch for
the masked pixel `p` in the ORIGINAL image array (the search never sees the
partially-filled result) and, when one exists, write its centre sample at `p`
into the result array. -/
def pmStep (W H : ℕ) (img : ℕ → ℕ → Color) (maskB : ℕ → ℕ → Bool) (ps : ℕ)
    (res : ℕ → ℕ → Color) (p : ℕ × ℕ) : ℕ → ℕ → Color :=
  match find_best_patch W H img maskB p.1 p.2 ps with
  | some bp => fun a b => if a = p.1 ∧ b = p.2 then bp.pix (ps / 2) (ps / 2) else res a b
  | none => res

/-- The row-major list of masked pixels `(x, y)` produced by
`np.where(mask_array)` on the thresholded mask. -/
def fillPixels (W H : ℕ) (maskB : ℕ → ℕ → Bool) : List (ℕ × ℕ) :=
  (List.range H).foldr
    (fun y acc =>
      ((List.range W).filterMap (fun x => if maskB x y then some (x, y) else none)) ++ acc) []

/-- `ContentAwareFill.patch_match_fill`: convert the image to RGB and
threshold the `'L'` mask at `> 128`; starting from a copy of the image array,
fill every masked pixel in raster order with the centre sample of its best
matching patch (pixels with no best patch keep their original value); return
the result as an `'RGB'` image. -/
def patch_match_fill (image mask : PImage) (ps : ℕ) : PImage :=
  let W := image.width
  let H := image.height
  let img := fun x y => image.rgbAt x y
  let maskB := fun x y => decide (128 < toLval mask x y)
  let result := (fillPixels W H maskB).foldl (pmStep W H img maskB ps) img
  ⟨W, H, PMode.RGB, fun x y =>
    let c := result x y
    [c.1, c.2.1, c.2.2]⟩

/-- Membership in a fold of appended blocks decomposes into membership in one
block or in the accumulator. -/
lemma mem_foldr_append {α β : Type} (f : α → List β) :
    ∀ (l : List α) (acc : List β) (p : β),
      p ∈ l.foldr (fun a r => f a ++ r) acc → (∃ a ∈ l, p ∈ f a) ∨ p ∈ acc := by
  intro l
  induction l with
  | nil => intro acc p h; exact Or.inr h
  | cons a as ih =>
    intro acc p h
    simp only [List.foldr_cons, List.mem_append] at h
    rcases h with h | h
    · exact Or.inl ⟨a, List.mem_cons_self a as, h⟩
    · rcases ih acc p h with ⟨b, hb, hpb⟩ | hacc
      · exact Or.inl ⟨b, List.mem_cons_of_mem a hb, hpb⟩
      · exact Or.inr hacc

/-- Every candidate centre `(sy, sx)` searched by `_find_best_patch` lies in
the interior ranges `half ≤ sy < H - half` and `half ≤ sx < W - half` (in
particular it is in bounds). -/
lemma candList_mem {W H half : ℕ} {p : ℕ × ℕ} (h : p ∈ candList W H half) :
    half ≤ p.1 ∧ p.1 < H ∧ half ≤ p.2 ∧ p.2 < W := by
  unfold candList at h
  rcases mem_foldr_append _ _ _ _ h with ⟨sy, hsy, hp⟩ | hfalse
  · rcases List.mem_map.mp hp with ⟨sx, hsx, rfl⟩
    rw [List.mem_range'_1] at hsy hsx
    refine ⟨hsy.1, by omega, hsx.1, by omega⟩
  · exact absurd hfalse (List.not_mem_nil p)

/-- If every candidate centre in the list is masked, the patch search fold
leaves its accumulator untouched. -/
lemma foldl_fbpStep_masked (img : ℕ → ℕ → Color) (maskB : ℕ → ℕ → Bool)
    (x1 y1 th tw half : ℕ) :
    ∀ (l : List (ℕ × ℕ)) (acc : Option (ℕ × Patch)),
      (∀ c ∈ l, maskB c.2 c.1 = true) →
      l.foldl (fbpStep img maskB x1 y1 th tw half) acc = acc := by
  intro l
  induction l with
  | nil => intro acc _; rfl
  | cons c cs ih =>
    intro acc hall
    have hc : maskB c.2 c.1 = true := hall c (List.mem_cons_self c cs)
    have hstep : fbpStep img maskB x1 y1 th tw half acc c = acc := by
      simp [fbpStep, hc]
    rw [List.foldl_cons, hstep]
    exact ih acc (fun d hd => hall d (List.mem_cons_of_mem c hd))

/-- If the clipped target window's shape differs from the full candidate
shape `(2*half+1) × (2*half+1)`, every candidate is skipped and the patch
search fold leaves its accumulator untouched. -/
lemma foldl_fbpStep_mismatch (img : ℕ → ℕ → Color) (maskB : ℕ → ℕ → Bool)
    (x1 y1 th tw half : ℕ)
    (hmis : ¬(th = 2 * half + 1 ∧ tw = 2 * half + 1)) :
    ∀ (l : List (ℕ × ℕ)) (acc : Option (ℕ × Patch)),
      l.foldl (fbpStep img maskB x1 y1 th tw half) acc = acc := by
  intro l
  induction l with
  | nil => intro acc; rfl
  | cons c cs ih =>
    intro acc
    have hstep : fbpStep img maskB x1 y1 th tw half acc c = acc := by
      by_cases hc : maskB c.2 c.1
      · simp [fbpStep, hc]
      · simp [fbpStep, hc, hmis]
    rw [List.foldl_cons, hstep]
    exact ih acc

/-- When the whole image is masked, `_find_best_patch` finds no candidate:
every candidate centre lies in bounds and is therefore masked and skipped. -/
lemma find_best_patch_none_of_full (W H : ℕ) (img : ℕ → ℕ → Color)
    (maskB : ℕ → ℕ → Bool) (tx ty ps : ℕ)
    (hm : ∀ x y, x < W → y < H → maskB x y = true) :
    find_best_patch W H img maskB tx ty ps = none := by
  simp only [find_best_patch]
  rw [foldl_fbpStep_masked _ _ _ _ _ _ _ _ _
    (fun c hc => hm c.2 c.1 (candList_mem hc).2.2.2 (candList_mem hc).2.1)]
  rfl

/-- For an in-bounds target pixel within `ps/2` of any image border, the
clipped target window is strictly smaller than a full candidate patch, so
`_find_best_patch` rejects every candidate by the shape check and returns
`None`. -/
lemma find_best_patch_none_of_border (W H : ℕ) (img : ℕ → ℕ → Color)
    (maskB : ℕ → ℕ → Bool) (tx ty ps : ℕ)
    (hb : tx < ps / 2 ∨ W ≤ tx + ps / 2 ∨ ty < ps / 2 ∨ H ≤ ty + ps / 2) :
    find_best_patch W H img maskB tx ty ps = none := by
  simp only [find_best_patch]
  rw [foldl_fbpStep_mismatch _ _ _ _ _ _ _ (by omega)]
  rfl

/-- If the best-patch search fails at a pixel, the `patch_match_fill` loop
never writes to that pixel: each iteration writes only at its own target. -/
lemma foldl_pmStep_preserve (W H : ℕ) (img : ℕ → ℕ → Color)
    (maskB : ℕ → ℕ → Bool) (ps tx ty : ℕ)
    (hnone : find_best_patch W H img maskB tx ty ps = none) :
    ∀ (l : List (ℕ × ℕ)) (res : ℕ → ℕ → Color), res tx ty = img tx ty →
      (l.foldl (pmStep W H img maskB ps) res) tx ty = img tx ty := by
  intro l
  induction l with
  | nil => intro res hres; exact hres
  | cons p pl ih =>
    intro res hres
    rw [List.foldl_cons]
    apply ih
    unfold pmStep
    cases hf : find_best_patch W H img maskB p.1 p.2 ps with
    | none => exact hres
    | some bp =>
      simp only
      by_cases hp : tx = p.1 ∧ ty = p.2
      · rw [hp.1, hp.2] at hnone
        rw [hnone] at hf
        exact absurd hf (by simp)
      · rw [if_neg hp]
        exact hres

/-- If the best-patch search fails everywhere, the whole `patch_match_fill`
loop is the identity on the result array. -/
lemma foldl_pmStep_id (W H : ℕ) (img : ℕ → ℕ → Color) (maskB : ℕ → ℕ → Bool)
    (ps : ℕ) (hnone : ∀ a b, find_best_patch W H img maskB a b ps = none) :
    ∀ (l : List (ℕ × ℕ)) (res : ℕ → ℕ → Color),
      l.foldl (pmStep W H img maskB ps) res = res := by
  intro l
  induction l with
  | nil => intro res; rfl
  | cons p pl ih =>
    intro res
    rw [List.foldl_cons]
    have hstep : pmStep W H img maskB ps res p = res := by
      unfold pmStep
      rw [hnone p.1 p.2]
    rw [hstep]
    exact ih res

/-- A three-sample channel list is recovered from its `getD` projections. -/
lemma getD3_eq (l : List ℕ) (h : l.length = 3) :
    [l.getD 0 0, l.getD 1 0, l.getD 2 0] = l := by
  match l, h with
  | [a, b, c], _ => rfl

/-- Claim C3 counterexample: on a concrete 1×1 RGBA image, `fill_selection`
with method `'telea'` (inpainting primitive instantiated by the identity on
the array) returns an `'RGB'`-mode image — the input's RGBA mode is not
preserved, so the output differs from every RGBA image. -/
theorem C3_mode_counterexample :
    (fill_selection (fun i _ => i) (fun i _ => i)
        ⟨1, 1, PMode.RGBA, fun _ _ => [1, 2, 3, 4]⟩
        ⟨1, 1, PMode.L, fun _ _ => [0]⟩ "telea").mode = PMode.RGB ∧
    (⟨1, 1, PMode.RGBA, fun _ _ => [1, 2, 3, 4]⟩ : PImage).mode = PMode.RGBA ∧
    (fill_selection (fun i _ => i) (fun i _ => i)
        ⟨1, 1, PMode.RGBA, fun _ _ => [1, 2, 3, 4]⟩
        ⟨1, 1, PMode.L, fun _ _ => [0]⟩ "telea").mode ≠
      (⟨1, 1, PMode.RGBA, fun _ _ => [1, 2, 3, 4]⟩ : PImage).mode := by
  refine ⟨rfl, rfl, by decide⟩

/-- Claim C3 (amended): every fill operation of `ContentAwareFill` returns an
`'RGB'`-mode image of the input's dimensions, regardless of the input mode,
the mask, the method string, and the external inpainting primitive — an RGBA
input yields RGB, not RGBA (alpha is dropped by the initial
`convert('RGB')` and never restored). -/
theorem C3_fill_always_rgb :
    (∀ (fT fNS : (ℕ → ℕ → Color) → (ℕ → ℕ → ℕ) → (ℕ → ℕ → Color))
      (image mask : PImage) (method : String),
      (fill_selection fT fNS image mask method).mode = PMode.RGB ∧
      (fill_selection fT fNS image mask method).width = image.width ∧
      (fill_selection fT fNS image mask method).height = image.height) ∧
    (∀ (image mask : PImage) (ps : ℕ),
      (patch_match_fill image mask ps).mode = PMode.RGB ∧
      (patch_match_fill image mask ps).width = image.width ∧
      (patch_match_fill image mask ps).height = image.height) :=
  ⟨fun _ _ _ _ _ => ⟨rfl, rfl, rfl⟩, fun _ _ _ => ⟨rfl, rfl, rfl⟩⟩

/-- Claim C6 counterexample: a fully-masked 1×1 RGBA image is not returned
unchanged by `patch_match_fill` — the output is an `'RGB'`-mode image, so it
differs from the RGBA input (even though every pixel value is preserved). -/
theorem C6_full_mask_mode_counterexample :
    patch_match_fill ⟨1, 1, PMode.RGBA, fun _ _ => [1, 2, 3, 4]⟩
        ⟨1, 1, PMode.L, fun _ _ => [255]⟩ 9 ≠
      ⟨1, 1, PMode.RGBA, fun _ _ => [1, 2, 3, 4]⟩ ∧
    (patch_match_fill ⟨1, 1, PMode.RGBA, fun _ _ => [1, 2, 3, 4]⟩
        ⟨1, 1, PMode.L, fun _ _ => [255]⟩ 9).mode = PMode.RGB := by
  constructor
  · intro h
    have hm := congrArg PImage.mode h
    exact absurd hm (by decide)
  · rfl

/-- Claim C6 (amended): when the mask selects every pixel (all values above
the 128 threshold), no candidate patch exists — every candidate centre is
masked — so `patch_match_fill` leaves every pixel value unchanged: the output
is the RGB conversion of the input with the input's dimensions, and for an
RGB-mode input (with well-formed three-channel samples) the pixel data is
literally unchanged. -/
theorem C6_full_mask_unchanged (image mask : PImage) (ps : ℕ)
    (hm : ∀ x y, x < image.width → y < image.height → 128 < toLval mask x y) :
    (patch_match_fill image mask ps).width = image.width ∧
    (patch_match_fill image mask ps).height = image.height ∧
    (patch_match_fill image mask ps).mode = PMode.RGB ∧
    (∀ x y, (patch_match_fill image mask ps).px x y =
      [(image.rgbAt x y).1, (image.rgbAt x y).2.1, (image.rgbAt x y).2.2]) ∧
    (image.mode = PMode.RGB → (∀ x y, (image.px x y).length = 3) →
      ∀ x y, (patch_match_fill image mask ps).px x y = image.px x y) := by
  have hnone : ∀ a b,
      find_best_patch image.width image.height (fun x y => image.rgbAt x y)
        (fun x y => decide (128 < toLval mask x y)) a b ps = none := by
    intro a b
    exact find_best_patch_none_of_full _ _ _ _ _ _ _
      (fun x y hx hy => by simp [hm x y hx hy])
  have hpx : ∀ x y, (patch_match_fill image mask ps).px x y =
      [(image.rgbAt x y).1, (image.rgbAt x y).2.1, (image.rgbAt x y).2.2] := by
    intro x y
    simp only [patch_match_fill]
    rw [foldl_pmStep_id _ _ _ _ _ hnone]
  refine ⟨rfl, rfl, rfl, hpx, ?_⟩
  intro hmode hlen x y
  rw [hpx x y]
  have : image.rgbAt x y =
      ((image.px x y).getD 0 0, (image.px x y).getD 1 0, (image.px x y).getD 2 0) := by
    rw [PImage.rgbAt, hmode]
    rfl
  rw [this]
  exact getD3_eq _ (hlen x y)

/-- Claim C6 witness: the full-mask invariance applied to a concrete 2×2 RGB
image under an all-255 mask. -/
theorem C6_full_mask_unchanged_witness :
    (patch_match_fill ⟨2, 2, PMode.RGB, fun x y => [x, y, 40]⟩
        ⟨2, 2, PMode.L, fun _ _ => [200]⟩ 9).width = 2 ∧
    (patch_match_fill ⟨2, 2, PMode.RGB, fun x y => [x, y, 40]⟩
        ⟨2, 2, PMode.L, fun _ _ => [200]⟩ 9).height = 2 ∧
    (patch_match_fill ⟨2, 2, PMode.RGB, fun x y => [x, y, 40]⟩
        ⟨2, 2, PMode.L, fun _ _ => [200]⟩ 9).mode = PMode.RGB ∧
    (∀ x y, (patch_match_fill ⟨2, 2, PMode.RGB, fun x y => [x, y, 40]⟩
        ⟨2, 2, PMode.L, fun _ _ => [200]⟩ 9).px x y =
      [((⟨2, 2, PMode.RGB, fun x y => [x, y, 40]⟩ : PImage).rgbAt x y).1,
        ((⟨2, 2, PMode.RGB, fun x y => [x, y, 40]⟩ : PImage).rgbAt x y).2.1,
        ((⟨2, 2, PMode.RGB, fun x y => [x, y, 40]⟩ : PImage).rgbAt x y).2.2]) ∧
    ((⟨2, 2, PMode.RGB, fun x y => [x, y, 40]⟩ : PImage).mode = PMode.RGB →
      (∀ x y, ((⟨2, 2, PMode.RGB, fun x y => [x, y, 40]⟩ : PImage).px x y).length = 3) →
      ∀ x y, (patch_match_fill ⟨2, 2, PMode.RGB, fun x y => [x, y, 40]⟩
        ⟨2, 2, PMode.L, fun _ _ => [200]⟩ 9).px x y =
        (⟨2, 2, PMode.RGB, fun x y => [x, y, 40]⟩ : PImage).px x y) :=
  C6_full_mask_unchanged ⟨2, 2, PMode.RGB, fun x y => [x, y, 40]⟩
    ⟨2, 2, PMode.L, fun _ _ => [200]⟩ 9 (fun x y _ _ => by simp [toLval])

/-- Claim C10: a masked in-bounds pixel lying within `ps/2` of any image
border is always left unchanged by `patch_match_fill`: its clipped target
window never matches the shape of a full candidate patch (and candidate
centres are only searched in the interior), so the best-patch search returns
`None` for it and no iteration of the fill loop writes to it. -/
theorem C10_border_pixel_unchanged (image mask : PImage) (ps tx ty : ℕ)
    (hx : tx < image.width) (hy : ty < image.height)
    (hmask : 128 < toLval mask tx ty)
    (hborder : tx < ps / 2 ∨ image.width ≤ tx + ps / 2 ∨ ty < ps / 2 ∨
      image.height ≤ ty + ps / 2) :
    (patch_match_fill image mask ps).px tx ty =
      [(image.rgbAt tx ty).1, (image.rgbAt tx ty).2.1, (image.rgbAt tx ty).2.2] ∧
    find_best_patch image.width image.height (fun x y => image.rgbAt x y)
      (fun x y => decide (128 < toLval mask x y)) tx ty ps = none := by
  have hnone : find_best_patch image.width image.height (fun x y => image.rgbAt x y)
      (fun x y => decide (128 < toLval mask x y)) tx ty ps = none :=
    find_best_patch_none_of_border _ _ _ _ _ _ _ hborder
  refine ⟨?_, hnone⟩
  simp only [patch_match_fill]
  rw [foldl_pmStep_preserve _ _ _ _ _ _ _ hnone _ _ rfl]

/-- Claim C10 witness: a 3×3 image with `patch_size` 9 (half-width 4), where
every pixel is border-near; the fully masked pixel (0,0) keeps its value. -/
theorem C10_border_pixel_unchanged_witness :
    (patch_match_fill ⟨3, 3, PMode.RGB, fun x y => [x + y, x, y]⟩
        ⟨3, 3, PMode.L, fun _ _ => [255]⟩ 9).px 0 0 =
      [((⟨3, 3, PMode.RGB, fun x y => [x + y, x, y]⟩ : PImage).rgbAt 0 0).1,
        ((⟨3, 3, PMode.RGB, fun x y => [x + y, x, y]⟩ : PImage).rgbAt 0 0).2.1,
        ((⟨3, 3, PMode.RGB, fun x y => [x + y, x, y]⟩ : PImage).rgbAt 0 0).2.2] ∧
    find_best_patch 3 3
      (fun x y => (⟨3, 3, PMode.RGB, fun x y => [x + y, x, y]⟩ : PImage).rgbAt x y)
      (fun x y => decide (128 < toLval (⟨3, 3, PMode.L, fun _ _ => [255]⟩ : PImage) x y))
      0 0 9 = none :=
  C10_border_pixel_unchanged ⟨3, 3, PMode.RGB, fun x y => [x + y, x, y]⟩
    ⟨3, 3, PMode.L, fun _ _ => [255]⟩ 9 0 0 (by decide) (by decide) (by decide)
    (by decide)

/-- `Image.crop((l, u, r, b))` of PIL: the `(r-l) × (b-u)` window whose pixel
`(x, y)` is the source pixel `(l+x, u+y)`; mode preserved. -/
def PImage.crop (image : PImage) (l u r b : ℕ) : PImage :=
  ⟨r - l, b - u, image.mode, fun x y => image.px (l + x) (u + y)⟩

/-- Python `int(...)` on a non-negative rational value (truncation toward
zero; on the claim-relevant inputs the source's float arithmetic is exact, so
the rational model coincides with it). -/
def pyInt (q : ℚ) : ℕ := (q.num / q.den).toNat

/-- `SmartCrop._golden_ratio_crop`: crop to the 1.618:1 aspect, centred along
the excess dimension. -/
def golden_ratio_crop (image : PImage) : PImage :=
  let w := image.width
  let h := image.height
  let golden : ℚ := 1.618
  if golden < (w : ℚ) / (h : ℚ) then
    let nw := pyInt ((h : ℚ) * golden)
    let cx := (w - nw) / 2
    image.crop cx 0 (cx + nw) h
  else
    let nh := pyInt ((w : ℚ) / golden)
    let cy := (h - nh) / 2
    image.crop 0 cy w (cy + nh)

/-- `SmartCrop._center_weighted_crop`: crop to the central 80% × 80% region. -/
def center_weighted_crop (image : PImage) : PImage :=
  let cw := pyInt ((image.width : ℚ) * (4 / 5))
  let ch := pyInt ((image.height : ℚ) * (4 / 5))
  let cx := (image.width - cw) / 2
  let cy := (image.height - ch) / 2
  image.crop cx cy (cx + cw) (cy + ch)

/-- `SmartCrop.auto_crop`: dispatch on the composition rule.  The
rule-of-thirds helper relies on the external Canny edge detector and is
therefore taken as a parameter; `golden_ratio` and `center_weighted` are the
translated source helpers; any other rule string returns the image
unchanged. -/
def auto_crop (ruleOfThirds : PImage → PImage) (image : PImage)
    (composition_rule : String) : PImage :=
  if composition_rule = "rule_of_thirds" then ruleOfThirds image
  else if composition_rule = "golden_ratio" then golden_ratio_crop image
  else if composition_rule = "center_weighted" then center_weighted_crop image
  else image

/-- The crop box `(left, upper, right, lower)` computed by
`SmartCrop.smart_resize_crop`: the crop axis is chosen by comparing aspect
ratios; the crop window matches the target aspect and is positioned to keep
the focus point centred, clamped by `max(0, min(size - new, focus - new//2))`
so it stays inside the image. -/
def smart_resize_crop_box (image : PImage) (target : ℕ × ℕ)
    (focus : Option (ℕ × ℕ)) : ℕ × ℕ × ℕ × ℕ :=
  let cw := image.width
  let ch := image.height
  let rCurrent : ℚ := (cw : ℚ) / (ch : ℚ)
  let rTarget : ℚ := (target.1 : ℚ) / (target.2 : ℚ)
  let fp := focus.getD (cw / 2, ch / 2)
  if rTarget < rCurrent then
    let nw := pyInt ((ch : ℚ) * rTarget)
    let cx := (max 0 (min ((cw : ℤ) - (nw : ℤ)) ((fp.1 : ℤ) - (nw : ℤ) / 2))).toNat
    (cx, 0, cx + nw, ch)
  else
    let nh := pyInt ((cw : ℚ) / rTarget)
    let cy := (max 0 (min ((ch : ℤ) - (nh : ℤ)) ((fp.2 : ℤ) - (nh : ℤ) / 2))).toNat
    (0, cy, cw, cy + nh)

/-- `SmartCrop.smart_resize_crop`: crop to the computed box, then resize to
the exact target dimensions with the external high-quality resampler
(`Image.resize(..., LANCZOS)`), taken as a parameter. -/
def smart_resize_crop (resize : PImage → ℕ × ℕ → PImage) (image : PImage)
    (target : ℕ × ℕ) (focus : Option (ℕ × ℕ)) : PImage :=
  let box := smart_resize_crop_box image target focus
  resize (image.crop box.1 box.2.1 box.2.2.1 box.2.2.2) target

/-- Claim C8: `smart_resize_crop` with target `(100, 50)` on any 200×200
image with focus point `(100, 100)` selects the crop box `(0, 50, 200, 150)`
— the aspect ratios are 1 and 2, so the height is cropped to
`int(200 / 2) = 100` at vertical offset `max(0, min(100, 100 - 50)) = 50`
while the width stays 200 — and, for any resampler satisfying the PIL
`resize` contract (output dimensions equal the requested size), the returned
image is exactly 100×50. -/
theorem C8_smart_resize_crop_200 (resize : PImage → ℕ × ℕ → PImage)
    (image : PImage)
    (hr : ∀ i s, (resize i s).width = s.1 ∧ (resize i s).height = s.2)
    (h1 : image.width = 200) (h2 : image.height = 200) :
    smart_resize_crop_box image (100, 50) (some (100, 100)) = (0, 50, 200, 150) ∧
    (smart_resize_crop resize image (100, 50) (some (100, 100))).width = 100 ∧
    (smart_resize_crop resize image (100, 50) (some (100, 100))).height = 50 := by
  refine ⟨?_, (hr _ _).1, (hr _ _).2⟩
  simp only [smart_resize_crop_box, h1, h2]
  norm_num [pyInt]
  decide

/-- Claim C8 witness: the crop box and output size on a concrete 200×200
image with a dimension-respecting resampler. -/
theorem C8_smart_resize_crop_200_witness :
    smart_resize_crop_box ⟨200, 200, PMode.RGB, fun _ _ => [1, 2, 3]⟩ (100, 50)
        (some (100, 100)) = (0, 50, 200, 150) ∧
    (smart_resize_crop (fun i s => ⟨s.1, s.2, i.mode, i.px⟩)
        ⟨200, 200, PMode.RGB, fun _ _ => [1, 2, 3]⟩ (100, 50)
        (some (100, 100))).width = 100 ∧
    (smart_resize_crop (fun i s => ⟨s.1, s.2, i.mode, i.px⟩)
        ⟨200, 200, PMode.RGB, fun _ _ => [1, 2, 3]⟩ (100, 50)
        (some (100, 100))).height = 50 :=
  C8_smart_resize_crop_200 (fun i s => ⟨s.1, s.2, i.mode, i.px⟩)
    ⟨200, 200, PMode.RGB, fun _ _ => [1, 2, 3]⟩ (fun _ _ => ⟨rfl, rfl⟩) rfl rfl

/-- Claim C4 counterexample: `erase_selection` with an unknown erase mode does
NOT return the image unchanged — an RGB input comes back promoted to RGBA
(alpha channel added), so the output differs from the input. -/
theorem C4_erase_unknown_mode_counterexample :
    erase_selection ⟨1, 1, PMode.RGB, fun _ _ => [5, 6, 7]⟩
        ⟨1, 1, PMode.L, fun _ _ => [0]⟩ (EraseMode.str "bogus") ≠
      ⟨1, 1, PMode.RGB, fun _ _ => [5, 6, 7]⟩ ∧
    (erase_selection ⟨1, 1, PMode.RGB, fun _ _ => [5, 6, 7]⟩
        ⟨1, 1, PMode.L, fun _ _ => [0]⟩ (EraseMode.str "bogus")).mode = PMode.RGBA ∧
    (⟨1, 1, PMode.RGB, fun _ _ => [5, 6, 7]⟩ : PImage).mode = PMode.RGB := by
  refine ⟨?_, rfl, rfl⟩
  intro h
  exact absurd (congrArg PImage.mode h) (by decide)

/-- Claim C4 (amended): unrecognised enum values never raise and fall back as
follows.  `combine_selections` with an unknown operation returns `mask1`
unchanged (same dimensions, `'L'` mode, same 8-bit samples); `auto_crop` with
an unknown composition rule returns the image itself, for any rule-of-thirds
helper; `erase_selection` with an unknown erase mode returns the image
promoted to RGBA with every pixel's channel data given by the RGBA promotion
(so an already-RGBA image is returned with its pixel data unchanged, while an
RGB or L image gains an alpha channel). -/
theorem C4_unknown_enum_fallbacks :
    (∀ (m1 m2 : PImage) (op : String),
      op ≠ "union" → op ≠ "intersection" → op ≠ "difference" →
      op ≠ "symmetric_difference" →
      (combine_selections m1 m2 op).width = m1.width ∧
      (combine_selections m1 m2 op).height = m1.height ∧
      (combine_selections m1 m2 op).mode = PMode.L ∧
      (∀ x y, pxVal m1 x y < 256 →
        pxVal (combine_selections m1 m2 op) x y = pxVal m1 x y)) ∧
    (∀ (ruleOfThirds : PImage → PImage) (image : PImage) (rule : String),
      rule ≠ "rule_of_thirds" → rule ≠ "golden_ratio" → rule ≠ "center_weighted" →
      auto_crop ruleOfThirds image rule = image) ∧
    (∀ (image mask : PImage) (s : String),
      s ≠ "transparent" → s ≠ "white" → s ≠ "black" →
      (erase_selection image mask (EraseMode.str s)).mode = PMode.RGBA ∧
      (erase_selection image mask (EraseMode.str s)).width = image.width ∧
      (erase_selection image mask (EraseMode.str s)).height = image.height ∧
      (∀ x y, (erase_selection image mask (EraseMode.str s)).px x y =
        convertRGBApx image.mode (image.px x y)) ∧
      (image.mode = PMode.RGBA →
        ∀ x y, (erase_selection image mask (EraseMode.str s)).px x y = image.px x y)) := by
  refine ⟨?_, ?_, ?_⟩
  · intro m1 m2 op h1 h2 h3 h4
    refine ⟨rfl, rfl, rfl, ?_⟩
    intro x y hlt
    simp only [combine_selections, pxVal, List.getD_cons_zero, if_neg h1, if_neg h2,
      if_neg h3, if_neg h4]
    simp only [pxVal] at hlt
    omega
  · intro rot image rule h1 h2 h3
    simp [auto_crop, h1, h2, h3]
  · intro image mask s h1 h2 h3
    refine ⟨rfl, rfl, rfl, ?_, ?_⟩
    · intro x y
      simp [erase_selection, h1, h2, h3]
    · intro hmode x y
      simp [erase_selection, h1, h2, h3, hmode, convertRGBApx]

/-- Claim C4 witness: the three fallbacks applied at concrete inputs with the
unknown enum value `"bogus"`. -/
theorem C4_unknown_enum_fallbacks_witness :
    pxVal (combine_selections ⟨1, 1, PMode.L, fun _ _ => [99]⟩
        ⟨1, 1, PMode.L, fun _ _ => [3]⟩ "bogus") 0 0 =
      pxVal (⟨1, 1, PMode.L, fun _ _ => [99]⟩ : PImage) 0 0 ∧
    auto_crop id ⟨1, 1, PMode.RGB, fun _ _ => [5, 6, 7]⟩ "bogus" =
      ⟨1, 1, PMode.RGB, fun _ _ => [5, 6, 7]⟩ ∧
    (erase_selection ⟨1, 1, PMode.RGBA, fun _ _ => [5, 6, 7, 8]⟩
        ⟨1, 1, PMode.L, fun _ _ => [0]⟩ (EraseMode.str "bogus")).px 0 0 =
      (⟨1, 1, PMode.RGBA, fun _ _ => [5, 6, 7, 8]⟩ : PImage).px 0 0 :=
  ⟨(C4_unknown_enum_fallbacks.1 ⟨1, 1, PMode.L, fun _ _ => [99]⟩
      ⟨1, 1, PMode.L, fun _ _ => [3]⟩ "bogus" (by decide) (by decide) (by decide)
      (by decide)).2.2.2 0 0 (by decide),
    C4_unknown_enum_fallbacks.2.1 id ⟨1, 1, PMode.RGB, fun _ _ => [5, 6, 7]⟩ "bogus"
      (by decide) (by decide) (by decide),
    (C4_unknown_enum_fallbacks.2.2 ⟨1, 1, PMode.RGBA, fun _ _ => [5, 6, 7, 8]⟩
      ⟨1, 1, PMode.L, fun _ _ => [0]⟩ "bogus" (by decide) (by decide) (by decide)).2.2.2.2
      rfl 0 0⟩
